import Mathlib

/-!
Verification of the trade-import core of `src/services/settingsService.ts`.

Shallow embedding conventions:
* JavaScript numbers are modelled as `ℚ` (the code's arithmetic on prices,
  quantities and PnL); millisecond timestamps as `ℕ`.
* `Array.prototype.sort` with comparator `a.time - b.time` (a stable ascending
  sort) is modelled by `List.insertionSort` on `≤` over times.
* Optional JSON fields become `Option`; `x ?? d` becomes `Option.getD`.
* `new Date(ms).toISOString()` is presentation only; `Trade.timestamp` keeps
  the millisecond value.
-/

namespace SettingsService

/-- Exchange identifier, from `models/types.ts` (`Exchange`). -/
inductive Exchange where
  | binance
  | binance_us
  | bybit
deriving DecidableEq

/-- Settings record, from `models/types.ts` (`Settings`). -/
structure Settings where
  exchange : Exchange
  exchangeApiKey : String
  exchangeApiSecret : String
  telegramBotToken : String
  telegramChatId : String
  alertServerUrl : String
  alertServerApiKey : String
deriving DecidableEq

/-- Output `Trade` record from `models/types.ts`; `timestamp` keeps the
millisecond value whose ISO rendering the code stores. -/
structure Trade where
  id : String
  symbol : String
  entryPrice : ℚ
  exitPrice : ℚ
  size : ℚ
  timestamp : ℕ
  pnl : ℚ
  category : String
  notes : String
  source : String
deriving DecidableEq

/-- Raw spot fill (`BinanceTrade` response type in `settingsService.ts`). -/
structure BinanceTrade where
  symbol : String
  qty : ℚ
  price : ℚ
  time : ℕ
  isBuyer : Bool
  commission : Option ℚ
deriving DecidableEq

/-- Spot netting state (`PositionState` in `settingsService.ts`): signed net
quantity and volume-weighted average entry price. -/
structure PositionState where
  qty : ℚ
  avgPrice : ℚ
deriving DecidableEq

/-- Result of the closing phase of one `toRealizedTrades` loop iteration:
the mutated position plus the loop-local `closedQty`, `entryPrice`, `pnl`. -/
structure StepClose where
  pos : PositionState
  closedQty : ℚ
  entryPrice : ℚ
  pnl : ℚ
deriving DecidableEq

/-- Closing phase of one iteration of `toRealizedTrades`:
a buy first closes against a short (`position.qty < 0`), a sell first closes
against a long (`position.qty > 0`), by `min(qty, |position.qty|)` at the
stored average price. -/
def spotClose (pos : PositionState) (isBuyer : Bool) (price qty : ℚ) : StepClose :=
  if isBuyer then
    if pos.qty < 0 then
      let closedQty := min qty (-pos.qty)
      ⟨⟨pos.qty + closedQty, pos.avgPrice⟩, closedQty, pos.avgPrice,
        (pos.avgPrice - price) * closedQty⟩
    else ⟨pos, 0, price, 0⟩
  else
    if 0 < pos.qty then
      let closedQty := min qty pos.qty
      ⟨⟨pos.qty - closedQty, pos.avgPrice⟩, closedQty, pos.avgPrice,
        (price - pos.avgPrice) * closedQty⟩
    else ⟨pos, 0, price, 0⟩

/-- Opening phase of one iteration of `toRealizedTrades`: the part of the fill
left after closing (`openingQty`) extends the same-side position with a
volume-weighted average, or opens a fresh position at the fill price; when
nothing opens and the position is flat the average price is zeroed. -/
def spotOpen (pos : PositionState) (isBuyer : Bool) (price openingQty : ℚ) : PositionState :=
  if isBuyer then
    if 0 < openingQty then
      if 0 < pos.qty then
        ⟨pos.qty + openingQty,
          (pos.avgPrice * pos.qty + price * openingQty) / (pos.qty + openingQty)⟩
      else ⟨openingQty, price⟩
    else if pos.qty = 0 then ⟨pos.qty, 0⟩ else pos
  else
    if 0 < openingQty then
      if pos.qty < 0 then
        ⟨pos.qty - openingQty,
          (pos.avgPrice * (-pos.qty) + price * openingQty) / (-pos.qty + openingQty)⟩
      else ⟨-openingQty, price⟩
    else if pos.qty = 0 then ⟨pos.qty, 0⟩ else pos

/-- One iteration of the `sorted.forEach` body of `toRealizedTrades`:
close, then open the remainder, and emit a realized `Trade` exactly when
`closedQty > 0` (the code's early `return` otherwise). -/
def spotStep (pos : PositionState) (t : BinanceTrade) (idx : ℕ) :
    PositionState × Option Trade :=
  let c := spotClose pos t.isBuyer t.price t.qty
  let p2 := spotOpen c.pos t.isBuyer t.price (t.qty - c.closedQty)
  if c.closedQty ≤ 0 then (p2, none)
  else
    (p2, some
      { id := t.symbol ++ "-" ++ toString t.time ++ "-" ++ toString idx
        symbol := t.symbol
        entryPrice := c.entryPrice
        exitPrice := t.price
        size := c.closedQty
        timestamp := t.time
        pnl := c.pnl - (t.commission.getD 0)
        category := "Uncategorized"
        notes := "Imported from Binance (" ++ (if t.isBuyer then "BUY" else "SELL") ++ ")"
        source := "API" })

/-- Runs `spotStep` down a fill list, threading the position and the `forEach`
index, collecting emitted trades in iteration order. -/
def spotRun : PositionState → ℕ → List BinanceTrade → PositionState × List Trade
  | pos, _, [] => (pos, [])
  | pos, idx, t :: ts =>
    let step := spotStep pos t idx
    let rest := spotRun step.1 (idx + 1) ts
    (rest.1, step.2.toList ++ rest.2)

/-- Comparator of the initial `sort((a, b) => a.time - b.time)`. -/
def timeLE (a b : BinanceTrade) : Prop := a.time ≤ b.time

instance : DecidableRel timeLE := fun a b => inferInstanceAs (Decidable (a.time ≤ b.time))

instance : IsTotal BinanceTrade timeLE := ⟨fun a b => Nat.le_total a.time b.time⟩

instance : IsTrans BinanceTrade timeLE := ⟨fun _ _ _ => Nat.le_trans⟩

/-- Chronological stable sort of the raw fills (`[...rawTrades].sort(...)`). -/
def sortFills (l : List BinanceTrade) : List BinanceTrade := l.insertionSort timeLE

/-- Spot position-netting function `toRealizedTrades`: sort fills by time, net
them through `spotStep` from a flat position, and return the emitted trades
newest-first (the code's final `.reverse()`). -/
def toRealizedTrades (rawTrades : List BinanceTrade) : List Trade :=
  (spotRun ⟨0, 0⟩ 0 (sortFills rawTrades)).2.reverse

/-- Claim C1: on the fill sequence (BUY 1 @100, BUY 1 @110, SELL 2 @120) for one
symbol with zero fees, `toRealizedTrades` emits exactly one `Trade` with
`entryPrice = 105`, `exitPrice = 120`, `size = 2`, `pnl = 30`; and when the
closing fill carries a commission `c`, that fee is subtracted: `pnl = 30 - c`. -/
theorem toRealizedTrades_example_netting :
    toRealizedTrades
      [⟨"BTCUSDT", 1, 100, 1, true, none⟩,
       ⟨"BTCUSDT", 1, 110, 2, true, none⟩,
       ⟨"BTCUSDT", 2, 120, 3, false, none⟩] =
      [{ id := "BTCUSDT-3-2", symbol := "BTCUSDT", entryPrice := 105, exitPrice := 120,
         size := 2, timestamp := 3, pnl := 30, category := "Uncategorized",
         notes := "Imported from Binance (SELL)", source := "API" }] ∧
    ∀ c : ℚ,
      toRealizedTrades
        [⟨"BTCUSDT", 1, 100, 1, true, none⟩,
         ⟨"BTCUSDT", 1, 110, 2, true, none⟩,
         ⟨"BTCUSDT", 2, 120, 3, false, some c⟩] =
        [{ id := "BTCUSDT-3-2", symbol := "BTCUSDT", entryPrice := 105, exitPrice := 120,
           size := 2, timestamp := 3, pnl := 30 - c, category := "Uncategorized",
           notes := "Imported from Binance (SELL)", source := "API" }] := by
  constructor
  · norm_num [toRealizedTrades, sortFills, List.insertionSort, List.orderedInsert,
      spotRun, spotStep, spotClose, spotOpen, timeLE]
    constructor <;> decide
  · intro c
    norm_num [toRealizedTrades, sortFills, List.insertionSort, List.orderedInsert,
      spotRun, spotStep, spotClose, spotOpen, timeLE]
    constructor <;> decide

/-- Claim C4: a single closing fill whose quantity strictly exceeds the open
quantity makes `spotStep` emit exactly one realized `Trade` (its `Option Trade`
result is `some`, never two) whose size is the previously open quantity, and
leaves a residual position of the opposite sign whose average entry price is
the fill price. -/
theorem spotStep_flip (pos : PositionState) (t : BinanceTrade) (idx : ℕ)
    (hopp : (0 < pos.qty ∧ t.isBuyer = false) ∨ (pos.qty < 0 ∧ t.isBuyer = true))
    (hexceed : |pos.qty| < t.qty) :
    (∃ tr : Trade, (spotStep pos t idx).2 = some tr ∧ tr.size = |pos.qty| ∧
      tr.entryPrice = pos.avgPrice ∧ tr.exitPrice = t.price) ∧
    (spotStep pos t idx).1.qty ≠ 0 ∧
    (spotStep pos t idx).1.qty * pos.qty < 0 ∧
    (spotStep pos t idx).1.avgPrice = t.price := by
  rcases hopp with ⟨hq, hb⟩ | ⟨hq, hb⟩
  · have hlt : pos.qty < t.qty := by rwa [abs_of_pos hq] at hexceed
    have hopen : 0 < t.qty - pos.qty := sub_pos.mpr hlt
    have hc : spotClose pos t.isBuyer t.price t.qty =
        ⟨⟨pos.qty - pos.qty, pos.avgPrice⟩, pos.qty, pos.avgPrice,
          (t.price - pos.avgPrice) * pos.qty⟩ := by
      simp [spotClose, hb, hq, min_eq_right hlt.le]
    have hstep : spotStep pos t idx =
        (⟨-(t.qty - pos.qty), t.price⟩, some
          { id := t.symbol ++ "-" ++ toString t.time ++ "-" ++ toString idx
            symbol := t.symbol
            entryPrice := pos.avgPrice
            exitPrice := t.price
            size := pos.qty
            timestamp := t.time
            pnl := (t.price - pos.avgPrice) * pos.qty - (t.commission.getD 0)
            category := "Uncategorized"
            notes := "Imported from Binance (" ++ (if t.isBuyer then "BUY" else "SELL") ++ ")"
            source := "API" }) := by
      simp only [spotStep, hc]
      rw [if_neg (by simp [not_le]; exact hq)]
      simp [spotOpen, hb, hopen, sub_self]
    rw [hstep]
    refine ⟨⟨_, rfl, by simp [abs_of_pos hq], rfl, rfl⟩, ?_, ?_, rfl⟩
    · exact (neg_lt_zero.mpr hopen).ne
    · exact mul_neg_of_neg_of_pos (neg_lt_zero.mpr hopen) hq
  · have hlt : -pos.qty < t.qty := by rwa [abs_of_neg hq] at hexceed
    have hopen : 0 < t.qty + pos.qty := by linarith
    have hc : spotClose pos t.isBuyer t.price t.qty =
        ⟨⟨pos.qty + -pos.qty, pos.avgPrice⟩, -pos.qty, pos.avgPrice,
          (pos.avgPrice - t.price) * -pos.qty⟩ := by
      simp [spotClose, hb, hq, min_eq_right hlt.le]
    have hstep : spotStep pos t idx =
        (⟨t.qty + pos.qty, t.price⟩, some
          { id := t.symbol ++ "-" ++ toString t.time ++ "-" ++ toString idx
            symbol := t.symbol
            entryPrice := pos.avgPrice
            exitPrice := t.price
            size := -pos.qty
            timestamp := t.time
            pnl := (pos.avgPrice - t.price) * -pos.qty - (t.commission.getD 0)
            category := "Uncategorized"
            notes := "Imported from Binance (" ++ (if t.isBuyer then "BUY" else "SELL") ++ ")"
            source := "API" }) := by
      simp only [spotStep, hc]
      rw [if_neg (by simp [not_le]; exact hq)]
      simp [spotOpen, hb, hopen, add_neg_cancel, sub_neg_eq_add]
    rw [hstep]
    refine ⟨⟨_, rfl, by simp [abs_of_neg hq], rfl, rfl⟩, ?_, ?_, rfl⟩
    · exact hopen.ne'
    · exact mul_neg_of_pos_of_neg hopen hq

/-- Witness for `spotStep_flip`: a long of 2 @105 hit by a SELL of 3 @120. -/
theorem spotStep_flip_witness :
    ((0 < (2 : ℚ) ∧ false = false) ∨ ((2 : ℚ) < 0 ∧ false = true)) ∧
    |(2 : ℚ)| < 3 ∧
    ((∃ tr : Trade,
        (spotStep ⟨2, 105⟩ ⟨"BTCUSDT", 3, 120, 9, false, none⟩ 0).2 = some tr ∧
        tr.size = |(⟨2, 105⟩ : PositionState).qty| ∧
        tr.entryPrice = (⟨2, 105⟩ : PositionState).avgPrice ∧
        tr.exitPrice = (120 : ℚ)) ∧
      (spotStep ⟨2, 105⟩ ⟨"BTCUSDT", 3, 120, 9, false, none⟩ 0).1.qty ≠ 0 ∧
      (spotStep ⟨2, 105⟩ ⟨"BTCUSDT", 3, 120, 9, false, none⟩ 0).1.qty *
        (⟨2, 105⟩ : PositionState).qty < 0 ∧
      (spotStep ⟨2, 105⟩ ⟨"BTCUSDT", 3, 120, 9, false, none⟩ 0).1.avgPrice = (120 : ℚ)) :=
  ⟨Or.inl ⟨by norm_num, rfl⟩, by norm_num,
    spotStep_flip ⟨2, 105⟩ ⟨"BTCUSDT", 3, 120, 9, false, none⟩ 0
      (Or.inl ⟨by norm_num, rfl⟩) (by norm_num)⟩

/-- Helper: two fill lists that are permutations of each other, both sorted by
time, with pairwise-distinct timestamps, are equal. -/
theorem fills_eq_of_perm_of_sorted :
    ∀ {l₁ l₂ : List BinanceTrade}, l₁.Perm l₂ →
      l₁.Sorted timeLE → l₂.Sorted timeLE →
      (l₁.map BinanceTrade.time).Nodup → l₁ = l₂ := by
  intro l₁
  induction l₁ with
  | nil =>
    intro l₂ hp _ _ _
    exact hp.nil_eq
  | cons a t ih =>
    intro l₂ hp hs₁ hs₂ hnd
    cases l₂ with
    | nil => exact absurd hp.symm.nil_eq (by simp)
    | cons b t₂ =>
      rw [List.map_cons, List.nodup_cons] at hnd
      have hab : a = b := by
        have hbmem : b ∈ a :: t := hp.mem_iff.mpr (List.mem_cons_self b t₂)
        have hamem : a ∈ b :: t₂ := hp.mem_iff.mp (List.mem_cons_self a t)
        rcases List.mem_cons.mp hbmem with h | h
        · exact h.symm
        · rcases List.mem_cons.mp hamem with h' | h'
          · exact h'
          · have h1 : a.time ≤ b.time := List.rel_of_sorted_cons hs₁ b h
            have h2 : b.time ≤ a.time := List.rel_of_sorted_cons hs₂ a h'
            have hmem : a.time ∈ t.map BinanceTrade.time :=
              le_antisymm h2 h1 ▸ List.mem_map_of_mem BinanceTrade.time h
            exact absurd hmem hnd.1
      subst hab
      rw [ih hp.cons_inv hs₁.of_cons hs₂.of_cons hnd.2]

/-- Helper: the chronological sort of a fill list with pairwise-distinct
timestamps depends only on the multiset of fills. -/
theorem sortFills_eq_of_perm (l₁ l₂ : List BinanceTrade) (hperm : l₁.Perm l₂)
    (hnodup : (l₁.map BinanceTrade.time).Nodup) : sortFills l₁ = sortFills l₂ :=
  fills_eq_of_perm_of_sorted
    ((List.perm_insertionSort timeLE l₁).trans
      (hperm.trans (List.perm_insertionSort timeLE l₂).symm))
    (List.sorted_insertionSort timeLE l₁)
    (List.sorted_insertionSort timeLE l₂)
    (((List.perm_insertionSort timeLE l₁).map BinanceTrade.time).nodup_iff.mpr hnodup)

/-- Claim C5: for a fixed set of fills with pairwise-distinct timestamps, the
total realized pnl emitted by `toRealizedTrades` is invariant under any
re-chunking of the fills (any permutation: concatenating time-window chunks
and re-sorting is a permutation of the original sequence). -/
theorem toRealizedTrades_chunk_invariant (l₁ l₂ : List BinanceTrade)
    (hperm : l₁.Perm l₂) (hnodup : (l₁.map BinanceTrade.time).Nodup) :
    ((toRealizedTrades l₁).map Trade.pnl).sum =
      ((toRealizedTrades l₂).map Trade.pnl).sum := by
  unfold toRealizedTrades
  rw [sortFills_eq_of_perm l₁ l₂ hperm hnodup]

/-- Witness for `toRealizedTrades_chunk_invariant`: two fills fed in swapped
order give the same realized-PnL total. -/
theorem toRealizedTrades_chunk_invariant_witness :
    ([⟨"BTCUSDT", 1, 100, 1, true, none⟩, ⟨"BTCUSDT", 1, 120, 2, false, none⟩] :
        List BinanceTrade).Perm
      [⟨"BTCUSDT", 1, 120, 2, false, none⟩, ⟨"BTCUSDT", 1, 100, 1, true, none⟩] ∧
    (([⟨"BTCUSDT", 1, 100, 1, true, none⟩, ⟨"BTCUSDT", 1, 120, 2, false, none⟩] :
        List BinanceTrade).map BinanceTrade.time).Nodup ∧
    ((toRealizedTrades
        [⟨"BTCUSDT", 1, 100, 1, true, none⟩, ⟨"BTCUSDT", 1, 120, 2, false, none⟩]).map
          Trade.pnl).sum =
      ((toRealizedTrades
        [⟨"BTCUSDT", 1, 120, 2, false, none⟩, ⟨"BTCUSDT", 1, 100, 1, true, none⟩]).map
          Trade.pnl).sum :=
  ⟨List.Perm.swap _ _ _, by simp,
    toRealizedTrades_chunk_invariant _ _ (List.Perm.swap _ _ _) (by simp)⟩

/-- Maximum span of a Binance futures income/userTrades window: seven days in
milliseconds (`FUTURES_MAX_WINDOW_MS`). -/
def FUTURES_MAX_WINDOW_MS : ℕ := 7 * 24 * 60 * 60 * 1000

/-- Time-window paginator `buildTimeWindows`: walk a cursor from `startTime`,
cutting a window of at most `FUTURES_MAX_WINDOW_MS` each step (the source's
`windowEnd` local is written out twice here), until the cursor passes
`endTime`. -/
def buildTimeWindows (startTime endTime : ℕ) : List (ℕ × ℕ) :=
  if h : startTime ≤ endTime then
    (startTime, min (startTime + FUTURES_MAX_WINDOW_MS - 1) endTime) ::
      buildTimeWindows (min (startTime + FUTURES_MAX_WINDOW_MS - 1) endTime + 1) endTime
  else []
termination_by endTime + 1 - startTime
decreasing_by
  have hW : FUTURES_MAX_WINDOW_MS = 604800000 := rfl
  simp_wf
  omega

/-- Coverage property of a window list for the range `[s, e]` (spec §4.3/§8):
non-empty, first window starts at `s`, windows are well-formed and span at
most `FUTURES_MAX_WINDOW_MS`, consecutive windows are contiguous (the next
starts one millisecond after the previous ends, hence non-overlapping), and
the last window ends exactly at `e`. -/
def WindowsCover (s e : ℕ) : List (ℕ × ℕ) → Prop
  | [] => False
  | (a, b) :: rest =>
    a = s ∧ a ≤ b ∧ b ≤ e ∧ b + 1 - a ≤ FUTURES_MAX_WINDOW_MS ∧
      ((rest = [] ∧ b = e) ∨ (b < e ∧ WindowsCover (b + 1) e rest))

/-- Helper: `buildTimeWindows` satisfies `WindowsCover`, by induction on the
length of the remaining range. -/
theorem buildTimeWindows_cover_aux :
    ∀ (n s e : ℕ), e + 1 - s ≤ n → s ≤ e → WindowsCover s e (buildTimeWindows s e) := by
  intro n
  induction n with
  | zero => intro s e hn hse; omega
  | succ n ih =>
    intro s e hn hse
    have hW : FUTURES_MAX_WINDOW_MS = 604800000 := rfl
    rw [buildTimeWindows, dif_pos hse]
    by_cases hcase : min (s + FUTURES_MAX_WINDOW_MS - 1) e = e
    · rw [hcase, buildTimeWindows, dif_neg (by omega)]
      exact ⟨rfl, hse, le_refl e, by omega, Or.inl ⟨rfl, rfl⟩⟩
    · have hble : min (s + FUTURES_MAX_WINDOW_MS - 1) e < e := by omega
      refine ⟨rfl, by omega, by omega, by omega, Or.inr ⟨hble, ?_⟩⟩
      exact ih _ e (by omega) (by omega)

/-- Helper: a window list satisfying `WindowsCover s e` covers exactly the
timestamps of `[s, e]`. -/
theorem windowsCover_union :
    ∀ (ws : List (ℕ × ℕ)) (s e : ℕ), WindowsCover s e ws →
      ∀ x : ℕ, (∃ w ∈ ws, w.1 ≤ x ∧ x ≤ w.2) ↔ (s ≤ x ∧ x ≤ e) := by
  intro ws
  induction ws with
  | nil =>
    intro s e hcov
    exact absurd hcov (by simp [WindowsCover])
  | cons w rest ih =>
    intro s e hcov x
    obtain ⟨a, b⟩ := w
    obtain ⟨ha, hab, hbe, hspan, hrest⟩ := hcov
    subst ha
    rcases hrest with ⟨hnil, hbeq⟩ | ⟨hlt, hcov'⟩
    · subst hnil; subst hbeq
      simp
    · have htail := ih (b + 1) e hcov' x
      simp only [List.mem_cons]
      constructor
      · rintro ⟨⟨wa, wb⟩, hw | hw, hx1, hx2⟩
        · rw [Prod.mk.injEq] at hw
          omega
        · have := htail.mp ⟨_, hw, hx1, hx2⟩
          omega
      · rintro ⟨hsx, hxe⟩
        by_cases hxb : x ≤ b
        · exact ⟨(a, b), Or.inl rfl, hsx, hxb⟩
        · obtain ⟨w, hw, hx⟩ := htail.mpr ⟨by omega, hxe⟩
          exact ⟨w, Or.inr hw, hx⟩

/-- Claim C3: for `start ≤ end`, `buildTimeWindows` produces a non-empty,
contiguous, non-overlapping window list, each window spanning at most the
7-day maximum, starting at `start`, ending at `end`, whose union is exactly
`[start, end]`. -/
theorem buildTimeWindows_spec (s e : ℕ) (h : s ≤ e) :
    WindowsCover s e (buildTimeWindows s e) ∧
    ∀ x : ℕ, (∃ w ∈ buildTimeWindows s e, w.1 ≤ x ∧ x ≤ w.2) ↔ (s ≤ x ∧ x ≤ e) := by
  have hcov := buildTimeWindows_cover_aux (e + 1 - s) s e le_rfl h
  exact ⟨hcov, windowsCover_union _ s e hcov⟩

/-- Witness for `buildTimeWindows_spec` at a 20-day range. -/
theorem buildTimeWindows_spec_witness :
    (0 : ℕ) ≤ 1728000000 ∧
    (WindowsCover 0 1728000000 (buildTimeWindows 0 1728000000) ∧
      ∀ x : ℕ, (∃ w ∈ buildTimeWindows 0 1728000000, w.1 ≤ x ∧ x ≤ w.2) ↔
        (0 ≤ x ∧ x ≤ 1728000000)) :=
  ⟨Nat.zero_le _, buildTimeWindows_spec 0 1728000000 (Nat.zero_le _)⟩

/-- Fill side of a Binance futures user trade. -/
inductive FutSide where
  | BUY
  | SELL
deriving DecidableEq

/-- Raw derivatives fill (`BinanceFuturesUserTrade` response type); its
`positionSide` is normalised upstream (`BOTH` is treated as `LONG`), so the
per-key machine below carries an `isLong` flag instead. -/
structure BinanceFuturesUserTrade where
  symbol : String
  side : FutSide
  price : ℚ
  qty : ℚ
  realizedPnl : ℚ
  time : ℕ
deriving DecidableEq

/-- Derivatives netting state (`PosState` in `fetchFuturesPositionHistory`),
kept per `(symbol, positionSide)` key. -/
structure PosState where
  qty : ℚ
  avgEntry : ℚ
  closeQty : ℚ
  closeNotional : ℚ
  realizedPnl : ℚ
  lastTime : ℕ
deriving DecidableEq

/-- The `openLong` helper: extend the position and recompute the
volume-weighted average entry (zeroed if the new quantity is not positive). -/
def openLong (state : PosState) (qty price : ℚ) : PosState :=
  { state with
    qty := state.qty + qty
    avgEntry :=
      if 0 < state.qty + qty then
        (state.avgEntry * state.qty + price * qty) / (state.qty + qty)
      else 0 }

/-- The `openShort` helper; its body is identical to `openLong` in the source
(quantities are kept positive for both position sides). -/
def openShort (state : PosState) (qty price : ℚ) : PosState :=
  { state with
    qty := state.qty + qty
    avgEntry :=
      if 0 < state.qty + qty then
        (state.avgEntry * state.qty + price * qty) / (state.qty + qty)
      else 0 }

/-- The closing branch of the `allUserTrades.forEach` body: reduce the open
quantity by `min(fillQty, openQty)` — any excess is discarded — and
accumulate closed quantity, closed notional and venue-reported realized PnL;
a fill closing nothing leaves the state untouched. -/
def futClose (state : PosState) (qty price realized : ℚ) (time : ℕ) : PosState :=
  if 0 < min qty state.qty then
    { qty := state.qty - min qty state.qty
      avgEntry := state.avgEntry
      closeQty := state.closeQty + min qty state.qty
      closeNotional := state.closeNotional + min qty state.qty * price
      realizedPnl := state.realizedPnl + realized
      lastTime := time }
  else state

/-- Fresh per-key state, as created on first touch and on reset after a flat
event (the code stamps `lastTime` with the current fill's time). -/
def emptyPosState (time : ℕ) : PosState := ⟨0, 0, 0, 0, 0, time⟩

/-- Whether a fill opens (rather than closes) the position of its key:
buy opens a long, sell opens a short. -/
def futOpens (isLong : Bool) (side : FutSide) : Bool :=
  (isLong && side == FutSide.BUY) || (!isLong && side == FutSide.SELL)

/-- Branch selection of the derivatives netting loop body (the value the
source leaves in `state` right before the flat-event check): opening fills go
through `openLong`/`openShort`, closing fills through `futClose`. -/
def futApply (isLong : Bool) (state : PosState) (t : BinanceFuturesUserTrade) : PosState :=
  if futOpens isLong t.side then
    if isLong then openLong state t.qty t.price else openShort state t.qty t.price
  else futClose state t.qty t.price t.realizedPnl t.time

/-- One iteration of the derivatives netting loop for one
`(symbol, positionSide)` key: skip non-positive quantities, apply the opening
or closing branch, and on a flat event (`qty = 0` with `closeQty > 0`) emit
one `Trade` and reset the key's state. -/
def futStep (isLong : Bool) (state : PosState) (t : BinanceFuturesUserTrade) (idx : ℕ) :
    PosState × Option Trade :=
  if 0 < t.qty then
    if (futApply isLong state t).qty = 0 ∧ 0 < (futApply isLong state t).closeQty then
      (emptyPosState t.time, some
        { id := "FUTPOS-" ++ t.symbol ++ "-" ++ (if isLong then "LONG" else "SHORT") ++
            "-" ++ toString (futApply isLong state t).lastTime ++ "-" ++ toString idx
          symbol := t.symbol
          entryPrice := (futApply isLong state t).avgEntry
          exitPrice := (futApply isLong state t).closeNotional / (futApply isLong state t).closeQty
          size := (futApply isLong state t).closeQty
          timestamp := (futApply isLong state t).lastTime
          pnl := (futApply isLong state t).realizedPnl
          category := "Uncategorized"
          notes := "Futures Position History (" ++ (if isLong then "LONG" else "SHORT") ++ ")"
          source := "API" })
    else (futApply isLong state t, none)
  else (state, none)

/-- Runs `futStep` down the chronological fill list of one key, threading the
state and the fill index, collecting emitted position-close trades. -/
def futRun (isLong : Bool) : PosState → ℕ → List BinanceFuturesUserTrade →
    PosState × List Trade
  | s, _, [] => (s, [])
  | s, idx, t :: ts =>
    let step := futStep isLong s t idx
    let rest := futRun isLong step.1 (idx + 1) ts
    (rest.1, step.2.toList ++ rest.2)

/-- Claim C2: when a closing fill brings the open quantity of a key to exactly
zero, `futStep` emits exactly one `Trade` with entry = running average entry,
exit = accumulated closed notional / accumulated closed quantity, size =
accumulated closed quantity, pnl = accumulated venue-reported realized PnL,
timestamp = the flattening fill's time — and resets the key's state. -/
theorem futStep_flat_emits (isLong : Bool) (s : PosState) (t : BinanceFuturesUserTrade)
    (idx : ℕ) (hq : 0 < s.qty) (hside : futOpens isLong t.side = false)
    (hge : s.qty ≤ t.qty) (hacc : 0 ≤ s.closeQty) :
    futStep isLong s t idx =
      (emptyPosState t.time, some
        { id := "FUTPOS-" ++ t.symbol ++ "-" ++ (if isLong then "LONG" else "SHORT") ++
            "-" ++ toString t.time ++ "-" ++ toString idx
          symbol := t.symbol
          entryPrice := s.avgEntry
          exitPrice := (s.closeNotional + s.qty * t.price) / (s.closeQty + s.qty)
          size := s.closeQty + s.qty
          timestamp := t.time
          pnl := s.realizedPnl + t.realizedPnl
          category := "Uncategorized"
          notes := "Futures Position History (" ++ (if isLong then "LONG" else "SHORT") ++ ")"
          source := "API" }) := by
  have hqt : 0 < t.qty := lt_of_lt_of_le hq hge
  have hmin : min t.qty s.qty = s.qty := min_eq_right hge
  have happly : futApply isLong s t =
      { qty := s.qty - s.qty
        avgEntry := s.avgEntry
        closeQty := s.closeQty + s.qty
        closeNotional := s.closeNotional + s.qty * t.price
        realizedPnl := s.realizedPnl + t.realizedPnl
        lastTime := t.time } := by
    rw [futApply, if_neg (by simp [hside]), futClose, hmin, if_pos hq]
  rw [futStep, if_pos hqt, happly]
  rw [if_pos ⟨sub_self s.qty, add_pos_of_nonneg_of_pos hacc hq⟩]

/-- Witness for `futStep_flat_emits`: a long of 2 with accumulated closes
(1 closed at notional 100, realized 5) flattened by a SELL of 2 @120. -/
theorem futStep_flat_emits_witness :
    (0 : ℚ) < 2 ∧ futOpens true FutSide.SELL = false ∧ (2 : ℚ) ≤ 2 ∧ (0 : ℚ) ≤ 1 ∧
    futStep true ⟨2, 105, 1, 100, 5, 7⟩ ⟨"BTCUSDT", FutSide.SELL, 120, 2, 30, 9⟩ 0 =
      (emptyPosState 9, some
        { id := "FUTPOS-" ++ "BTCUSDT" ++ "-" ++ (if true then "LONG" else "SHORT") ++
            "-" ++ toString (9 : ℕ) ++ "-" ++ toString (0 : ℕ)
          symbol := "BTCUSDT"
          entryPrice := (⟨2, 105, 1, 100, 5, 7⟩ : PosState).avgEntry
          exitPrice := ((⟨2, 105, 1, 100, 5, 7⟩ : PosState).closeNotional +
            (⟨2, 105, 1, 100, 5, 7⟩ : PosState).qty * (120 : ℚ)) /
            ((⟨2, 105, 1, 100, 5, 7⟩ : PosState).closeQty +
              (⟨2, 105, 1, 100, 5, 7⟩ : PosState).qty)
          size := (⟨2, 105, 1, 100, 5, 7⟩ : PosState).closeQty +
            (⟨2, 105, 1, 100, 5, 7⟩ : PosState).qty
          timestamp := 9
          pnl := (⟨2, 105, 1, 100, 5, 7⟩ : PosState).realizedPnl + (30 : ℚ)
          category := "Uncategorized"
          notes := "Futures Position History (" ++ (if true then "LONG" else "SHORT") ++ ")"
          source := "API" }) :=
  ⟨by norm_num, rfl, by norm_num, by norm_num,
    futStep_flat_emits true ⟨2, 105, 1, 100, 5, 7⟩ ⟨"BTCUSDT", FutSide.SELL, 120, 2, 30, 9⟩ 0
      (by norm_num) rfl (by norm_num) (by norm_num)⟩

/-- Claim C10: the derivatives machine keeps the per-key open quantity
non-negative: one step preserves `0 ≤ qty`; a closing fill reduces the open
quantity exactly by `min(fillQty, openQty)` (the excess is discarded, so the
position never flips); and a whole run from a non-negative state stays
non-negative. -/
theorem futStep_qty_nonneg (isLong : Bool) :
    (∀ (s : PosState) (t : BinanceFuturesUserTrade) (idx : ℕ), 0 ≤ s.qty →
      0 ≤ (futStep isLong s t idx).1.qty) ∧
    (∀ (s : PosState) (t : BinanceFuturesUserTrade) (idx : ℕ), 0 ≤ s.qty →
      futOpens isLong t.side = false → 0 < t.qty →
      (futStep isLong s t idx).1.qty = s.qty - min t.qty s.qty) ∧
    (∀ (fills : List BinanceFuturesUserTrade) (s : PosState) (idx : ℕ), 0 ≤ s.qty →
      0 ≤ (futRun isLong s idx fills).1.qty) := by
  have happly : ∀ (s : PosState) (t : BinanceFuturesUserTrade), 0 ≤ s.qty → 0 < t.qty →
      0 ≤ (futApply isLong s t).qty := by
    intro s t hs ht
    rw [futApply]
    by_cases hop : futOpens isLong t.side
    · rw [if_pos hop]
      by_cases hl : isLong
      · rw [if_pos hl]
        show 0 ≤ s.qty + t.qty
        linarith
      · rw [if_neg hl]
        show 0 ≤ s.qty + t.qty
        linarith
    · rw [if_neg hop, futClose]
      by_cases hc : 0 < min t.qty s.qty
      · rw [if_pos hc]
        have := min_le_right t.qty s.qty
        show 0 ≤ s.qty - min t.qty s.qty
        linarith
      · rw [if_neg hc]
        exact hs
  have hstep : ∀ (s : PosState) (t : BinanceFuturesUserTrade) (idx : ℕ), 0 ≤ s.qty →
      0 ≤ (futStep isLong s t idx).1.qty := by
    intro s t idx hs
    rw [futStep]
    by_cases hqt : 0 < t.qty
    · rw [if_pos hqt]
      by_cases hflat : (futApply isLong s t).qty = 0 ∧ 0 < (futApply isLong s t).closeQty
      · rw [if_pos hflat]
        exact le_refl 0
      · rw [if_neg hflat]
        exact happly s t hs hqt
    · rw [if_neg hqt]
      exact hs
  refine ⟨hstep, ?_, ?_⟩
  · intro s t idx hs hside hqt
    have hap : futApply isLong s t = futClose s t.qty t.price t.realizedPnl t.time := by
      rw [futApply, if_neg (by simp [hside])]
    rw [futStep, if_pos hqt]
    by_cases hflat : (futApply isLong s t).qty = 0 ∧ 0 < (futApply isLong s t).closeQty
    · rw [if_pos hflat]
      have h0 : (futApply isLong s t).qty = 0 := hflat.1
      rw [hap, futClose] at h0
      show (0 : ℚ) = s.qty - min t.qty s.qty
      by_cases hc : 0 < min t.qty s.qty
      · rw [if_pos hc] at h0
        exact h0.symm
      · rw [if_neg hc] at h0
        rcases le_total t.qty s.qty with h | h
        · rw [min_eq_left h] at hc ⊢
          linarith
        · rw [min_eq_right h] at hc ⊢
          linarith
    · rw [if_neg hflat, hap, futClose]
      by_cases hc : 0 < min t.qty s.qty
      · rw [if_pos hc]
      · rw [if_neg hc]
        rcases le_total t.qty s.qty with h | h
        · rw [min_eq_left h] at hc
          exact absurd hqt (by simpa using hc)
        · rw [min_eq_right h] at hc ⊢
          have : s.qty ≤ 0 := by simpa using hc
          have h0 : s.qty = 0 := le_antisymm this hs
          rw [h0]
          norm_num
  · intro fills
    induction fills with
    | nil =>
      intro s idx hs
      exact hs
    | cons t ts ih =>
      intro s idx hs
      exact ih (futStep isLong s t idx).1 (idx + 1) (hstep s t idx hs)

/-- Witness for `futStep_qty_nonneg`: a long of 1 hit by a SELL of 3 keeps a
non-negative open quantity. -/
theorem futStep_qty_nonneg_witness :
    (0 : ℚ) ≤ (⟨1, 100, 0, 0, 0, 0⟩ : PosState).qty ∧
    0 ≤ (futStep true ⟨1, 100, 0, 0, 0, 0⟩ ⟨"BTCUSDT", FutSide.SELL, 120, 3, 0, 1⟩ 0).1.qty :=
  ⟨by norm_num, (futStep_qty_nonneg true).1 ⟨1, 100, 0, 0, 0, 0⟩
    ⟨"BTCUSDT", FutSide.SELL, 120, 3, 0, 1⟩ 0 (by norm_num)⟩

/-- One page of the Bybit `/v5/position/closed-pnl` response as consumed by
the pagination loop: `result.list` (defaulted to `[]`) plus the optional
`result.nextPageCursor`. -/
structure BybitPage (α : Type) where
  list : List α
  nextPageCursor : Option String

/-- The Bybit cursor-pagination `while (true)` loop of
`fetchFuturesPositionHistory`, run against a modelled sequence of venue
responses (the page returned by the i-th request). Each iteration appends the
page's rows and breaks when the next token is absent/empty (`!next`), the page
is empty, or the token equals the cursor just queried (`next === cursor`).
`some rows` means the loop broke within the supplied responses; `none` means
it was still looping when they ran out. -/
def bybitCursorLoop {α : Type} : List (BybitPage α) → String → List α → Option (List α)
  | [], _, _ => none
  | p :: rest, cursor, rows =>
    if (p.nextPageCursor.getD "") = "" ∨ p.list.length = 0 ∨ (p.nextPageCursor.getD "") = cursor
    then some (rows ++ p.list)
    else bybitCursorLoop rest (p.nextPageCursor.getD "") (rows ++ p.list)

/-- Along the cursor trajectory, some response is an empty page, omits the
next-page token (or sends the empty token), or repeats the cursor it was
queried with — the "same token twice in a row" guard, since each queried
cursor is the previous response's token. -/
def BybitStops {α : Type} : List (BybitPage α) → String → Prop
  | [], _ => False
  | p :: rest, cursor =>
    ((p.nextPageCursor.getD "") = "" ∨ p.list.length = 0 ∨ (p.nextPageCursor.getD "") = cursor)
    ∨ BybitStops rest (p.nextPageCursor.getD "")

/-- Claim C8: the Bybit cursor-paginated fetch terminates: for every response
sequence that eventually returns an empty page, omits the next token, or
repeats a token, the loop breaks within the supplied responses (in particular
within their number of iterations) and returns the accumulated rows. -/
theorem bybitCursorLoop_terminates {α : Type} :
    ∀ (pages : List (BybitPage α)) (cursor : String) (rows : List α),
      BybitStops pages cursor →
      (bybitCursorLoop pages cursor rows).isSome = true := by
  intro pages
  induction pages with
  | nil =>
    intro cursor rows h
    exact absurd h (by simp [BybitStops])
  | cons p rest ih =>
    intro cursor rows h
    rw [bybitCursorLoop]
    by_cases hc : (p.nextPageCursor.getD "") = "" ∨ p.list.length = 0 ∨
        (p.nextPageCursor.getD "") = cursor
    · rw [if_pos hc]
      rfl
    · rw [if_neg hc]
      rcases h with h | h
      · exact absurd h hc
      · exact ih _ _ h

/-- Witness for `bybitCursorLoop_terminates`: a source whose second response
omits the next token stops the loop. -/
theorem bybitCursorLoop_terminates_witness :
    BybitStops [⟨[(1 : ℕ)], some "a"⟩, ⟨[2], none⟩] "" ∧
    (bybitCursorLoop [⟨[(1 : ℕ)], some "a"⟩, ⟨[2], none⟩] "" []).isSome = true :=
  ⟨Or.inr (Or.inl (Or.inl rfl)),
    bybitCursorLoop_terminates [⟨[(1 : ℕ)], some "a"⟩, ⟨[2], none⟩] "" []
      (Or.inr (Or.inl (Or.inl rfl)))⟩

/-- Outcome of preparing a signed GET: either the request that will be issued
(url plus headers), or the authentication failure the spec claims occurs on an
empty credential. The spec-claimed `authError` constructor exists so the claim
can be stated; the embedding shows the source never produces it. -/
inductive SignedRequest where
  | request (url : String) (headers : List (String × String))
  | authError
deriving DecidableEq

/-- Venue REST base url (`getBaseUrl`). -/
def getBaseUrl : Exchange → String
  | .bybit => "https://api.bybit.com"
  | .binance_us => "https://api.binance.us"
  | .binance => "https://api.binance.com"

/-- Query-string builder (`buildQuery`); `encodeURIComponent` is modelled as
the identity, faithful on the alphanumeric parameters the service sends. -/
def buildQuery (params : List (String × String)) : String :=
  String.intercalate "&" (params.map fun kv => kv.1 ++ "=" ++ kv.2)

/-- Binance signature (`signQuery`): HMAC-SHA256 of the query string keyed by
the API secret; the HMAC itself is an opaque function parameter `hmac`. -/
def signQuery (hmac : String → String → String) (query secret : String) : String :=
  hmac query secret

/-- Bybit signature (`signBybitGet`): HMAC-SHA256 of
`timestamp + apiKey + recvWindow + query` keyed by the API secret. -/
def signBybitGet (hmac : String → String → String)
    (timestamp apiKey recvWindow query secret : String) : String :=
  hmac (timestamp ++ apiKey ++ recvWindow ++ query) secret

/-- The request `signedGetFromBase` prepares and sends (`Date.now()` is passed
in as `now`): header-signed for Bybit, query-signed with the API key in the
`X-MBX-APIKEY` header for Binance. No credential check exists on either path. -/
def signedGetFromBase (hmac : String → String → String) (baseUrl path : String)
    (settings : Settings) (params : List (String × String)) (now : ℕ) : SignedRequest :=
  if settings.exchange = .bybit then
    .request
      (baseUrl ++ path ++
        (if buildQuery params = "" then "" else "?" ++ buildQuery params))
      [("X-BAPI-API-KEY", settings.exchangeApiKey),
       ("X-BAPI-TIMESTAMP", toString now),
       ("X-BAPI-RECV-WINDOW", "10000"),
       ("X-BAPI-SIGN", signBybitGet hmac (toString now) settings.exchangeApiKey "10000"
          (buildQuery params) settings.exchangeApiSecret)]
  else
    .request
      (baseUrl ++ path ++ "?" ++
        buildQuery (params ++ [("timestamp", toString now), ("recvWindow", "10000")]) ++
        "&signature=" ++
        signQuery hmac
          (buildQuery (params ++ [("timestamp", toString now), ("recvWindow", "10000")]))
          settings.exchangeApiSecret)
      [("X-MBX-APIKEY", settings.exchangeApiKey)]

/-- The request `signedGet` prepares and sends: the Bybit branch builds the
header-signed request against `getBaseUrl`; every other venue delegates to
`signedGetFromBase`. -/
def signedGet (hmac : String → String → String) (path : String) (settings : Settings)
    (params : List (String × String)) (now : ℕ) : SignedRequest :=
  if settings.exchange = .bybit then
    .request
      (getBaseUrl settings.exchange ++ path ++
        (if buildQuery params = "" then "" else "?" ++ buildQuery params))
      [("X-BAPI-API-KEY", settings.exchangeApiKey),
       ("X-BAPI-TIMESTAMP", toString now),
       ("X-BAPI-RECV-WINDOW", "10000"),
       ("X-BAPI-SIGN", signBybitGet hmac (toString now) settings.exchangeApiKey "10000"
          (buildQuery params) settings.exchangeApiSecret)]
  else signedGetFromBase hmac (getBaseUrl settings.exchange) path settings params now

/-- Counterexample to claim C6: with an entirely empty credential, both the
query-signed (Binance) and the header-signed (Bybit) variants still build a
network request — neither fails with an authentication error. -/
theorem signedGet_no_credential_check_counterexample :
    signedGet (fun _ _ => "sig") "/api/v3/account"
        ⟨.binance, "", "", "", "", "", ""⟩ [] 0 ≠ SignedRequest.authError ∧
    signedGet (fun _ _ => "sig") "/v5/account/wallet-balance"
        ⟨.bybit, "", "", "", "", "", ""⟩ [] 0 ≠ SignedRequest.authError := by
  constructor <;> decide

/-- Claim C6 amended: the signed-request layer performs no credential check;
with an empty API key or secret, both variants still produce a network
request (the empty-credential guard lives in the caller screens, which skip
the call with an error message instead of raising an authentication error). -/
theorem signedGet_empty_credential_still_requests (hmac : String → String → String)
    (path : String) (settings : Settings) (params : List (String × String)) (now : ℕ)
    (_hcred : settings.exchangeApiKey = "" ∨ settings.exchangeApiSecret = "") :
    ∃ url headers, signedGet hmac path settings params now =
      SignedRequest.request url headers := by
  rw [signedGet]
  by_cases hb : settings.exchange = .bybit
  · rw [if_pos hb]
    exact ⟨_, _, rfl⟩
  · rw [if_neg hb, signedGetFromBase, if_neg hb]
    exact ⟨_, _, rfl⟩

/-- Witness for `signedGet_empty_credential_still_requests` at an empty
Binance credential. -/
theorem signedGet_empty_credential_still_requests_witness :
    ((⟨.binance, "", "", "", "", "", ""⟩ : Settings).exchangeApiKey = "" ∨
      (⟨.binance, "", "", "", "", "", ""⟩ : Settings).exchangeApiSecret = "") ∧
    ∃ url headers,
      signedGet (fun _ _ => "sig") "/api/v3/account"
        ⟨.binance, "", "", "", "", "", ""⟩ [] 0 = SignedRequest.request url headers :=
  ⟨Or.inl rfl,
    signedGet_empty_credential_still_requests (fun _ _ => "sig") "/api/v3/account"
      ⟨.binance, "", "", "", "", "", ""⟩ [] 0 (Or.inl rfl)⟩

/-- Recognised stable/quote assets (`stableCoins` in `fetchDashboardData`). -/
def stableCoins : List String := ["USD", "USDT", "USDC", "FDUSD", "TUSD", "BUSD"]

/-- JavaScript truthiness of a looked-up ticker price: an absent entry and a
zero price are both falsy, so either falls through to the next lookup. -/
def truthyPrice : Option ℚ → Option ℚ
  | some p => if p = 0 then none else some p
  | none => none

/-- Asset-to-quote conversion `toQuoteValue` inside `fetchDashboardData` (the
captured `tickerMap` and `preferredQuote` are passed explicitly): identity for
stable/quote assets, then direct pair, inverse pair (divide), USDT-bridge
direct, USDT-bridge inverse; `0` when no path resolves. -/
def toQuoteValue (tickerMap : String → Option ℚ) (preferredQuote : String)
    (asset : String) (amount : ℚ) : ℚ :=
  if amount ≤ 0 then 0
  else if asset ∈ stableCoins then amount
  else if asset = preferredQuote then amount
  else
    match truthyPrice (tickerMap (asset ++ preferredQuote)) with
    | some direct => amount * direct
    | none =>
      match truthyPrice (tickerMap (preferredQuote ++ asset)) with
      | some inverse => amount / inverse
      | none =>
        match truthyPrice (tickerMap (asset ++ "USDT")) with
        | some usdtDirect => amount * usdtDirect
        | none =>
          match truthyPrice (tickerMap ("USDT" ++ asset)) with
          | some usdtInverse => amount / usdtInverse
          | none => 0

/-- Ticker table of the C7 scenario: the asset has no direct (`XYZUSD`) and no
inverse (`USDXYZ`) pair against the preferred quote `USD`, the bridge pair
`XYZUSDT` is priced 2, and the secondary quote asset is priced 50000 in the
quote currency (`USDTUSD`). -/
def bridgeTickers : String → Option ℚ := fun s =>
  if s = "XYZUSDT" then some 2 else if s = "USDTUSD" then some 50000 else none

/-- Counterexample to claim C7: in the claimed scenario the code returns
`0.5 × 2 = 1` quote units — the secondary quote asset's own price (50000) is
never applied, so the result is not `0.5 × 2 × 50000 = 50000`. -/
theorem toQuoteValue_bridge_counterexample :
    toQuoteValue bridgeTickers "USD" "XYZ" (1 / 2) = 1 ∧
    toQuoteValue bridgeTickers "USD" "XYZ" (1 / 2) ≠ 50000 := by
  have h : toQuoteValue bridgeTickers "USD" "XYZ" (1 / 2) = 1 := by
    simp +decide only [toQuoteValue, bridgeTickers, truthyPrice, stableCoins]
    norm_num
  refine ⟨h, ?_⟩
  rw [h]
  norm_num

/-- Claim C7 amended: when the asset has no direct and no inverse pair against
the preferred quote but a truthy USDT bridge pair priced `p`, the conversion
contributes `amount × p` (USDT is implicitly taken at par with the quote
currency; the secondary asset's own quote price is not consulted), so 0.5 of
an asset whose bridge pair is priced 2 contributes 1 quote unit. -/
theorem toQuoteValue_usdt_bridge (tickerMap : String → Option ℚ)
    (pq asset : String) (amount p : ℚ) (hamount : 0 < amount)
    (hstable : asset ∉ stableCoins) (hquote : asset ≠ pq)
    (hdirect : truthyPrice (tickerMap (asset ++ pq)) = none)
    (hinverse : truthyPrice (tickerMap (pq ++ asset)) = none)
    (hbridge : truthyPrice (tickerMap (asset ++ "USDT")) = some p) :
    toQuoteValue tickerMap pq asset amount = amount * p := by
  rw [toQuoteValue, if_neg (not_le.mpr hamount), if_neg hstable, if_neg hquote,
    hdirect, hinverse, hbridge]

/-- Witness for `toQuoteValue_usdt_bridge` at the C7 scenario. -/
theorem toQuoteValue_usdt_bridge_witness :
    (0 : ℚ) < 1 / 2 ∧ "XYZ" ∉ stableCoins ∧ "XYZ" ≠ "USD" ∧
    truthyPrice (bridgeTickers ("XYZ" ++ "USD")) = none ∧
    truthyPrice (bridgeTickers ("USD" ++ "XYZ")) = none ∧
    truthyPrice (bridgeTickers ("XYZ" ++ "USDT")) = some 2 ∧
    toQuoteValue bridgeTickers "USD" "XYZ" (1 / 2) = (1 / 2 : ℚ) * 2 :=
  ⟨by norm_num, by decide, by decide, by decide, by decide, by decide,
    toQuoteValue_usdt_bridge bridgeTickers "USD" "XYZ" (1 / 2) 2 (by norm_num)
      (by decide) (by decide) (by decide) (by decide) (by decide)⟩

/-- One row of the Binance `/api/v3/account` balances array. -/
structure BalanceEntry where
  asset : String
  free : ℚ
  locked : ℚ
deriving DecidableEq

/-- Spot-leg valuation in `fetchDashboardData`: `reduce` over all balances of
the quote value of `free + locked`. -/
def spotBalance (tickerMap : String → Option ℚ) (preferredQuote : String)
    (balances : List BalanceEntry) : ℚ :=
  balances.foldl
    (fun sum b => sum + toQuoteValue tickerMap preferredQuote b.asset (b.free + b.locked)) 0

/-- Balance snapshot of `fetchDashboardData` (its Binance branch), restricted
to the balance fields; `runningTrades` is orthogonal to the aggregation
claims and not modelled. -/
structure DashboardData where
  accountBalance : ℚ
  spotBalance : ℚ
  futuresBalance : ℚ
  totalBalance : ℚ
  futuresAvailable : Bool
deriving DecidableEq

/-- Balance aggregation of `fetchDashboardData` (Binance branch). The
derivatives leg is `some balance` when the futures account call succeeds and
`none` when it fails or no futures base url exists — the `try/catch` that
zeroes the futures balance and clears `futuresAvailable` without failing the
whole call. -/
def fetchDashboardData (tickerMap : String → Option ℚ) (preferredQuote : String)
    (balances : List BalanceEntry) (futuresResult : Option ℚ) : DashboardData :=
  { accountBalance := spotBalance tickerMap preferredQuote balances + futuresResult.getD 0
    spotBalance := spotBalance tickerMap preferredQuote balances
    futuresBalance := futuresResult.getD 0
    totalBalance := spotBalance tickerMap preferredQuote balances + futuresResult.getD 0
    futuresAvailable := futuresResult.isSome }

/-- Helper: the spot-leg `reduce` is the sum of per-asset quote values. -/
theorem spotBalance_eq_sum (tickerMap : String → Option ℚ) (pq : String) :
    ∀ (bs : List BalanceEntry) (a : ℚ),
      bs.foldl (fun sum b => sum + toQuoteValue tickerMap pq b.asset (b.free + b.locked)) a =
        a + (bs.map fun b => toQuoteValue tickerMap pq b.asset (b.free + b.locked)).sum := by
  intro bs
  induction bs with
  | nil =>
    intro a
    simp
  | cons b t ih =>
    intro a
    simp [ih, add_assoc]

/-- Claim C9: balance aggregation degrades instead of failing. An asset whose
conversion resolves to zero (no path) leaves the spot figure unchanged, and a
failed derivatives leg yields `futuresAvailable = false`, futures balance 0,
and a total equal to the unchanged spot-only figure. -/
theorem fetchDashboardData_degrades (tickerMap : String → Option ℚ) (pq : String)
    (b : BalanceEntry) (balances : List BalanceEntry)
    (hnopath : toQuoteValue tickerMap pq b.asset (b.free + b.locked) = 0) :
    spotBalance tickerMap pq (b :: balances) = spotBalance tickerMap pq balances ∧
    ∀ bs : List BalanceEntry,
      fetchDashboardData tickerMap pq bs none =
        { accountBalance := spotBalance tickerMap pq bs
          spotBalance := spotBalance tickerMap pq bs
          futuresBalance := 0
          totalBalance := spotBalance tickerMap pq bs
          futuresAvailable := false } := by
  constructor
  · rw [spotBalance, spotBalance, List.foldl_cons, hnopath, add_zero]
  · intro bs
    simp [fetchDashboardData]

/-- Witness for `fetchDashboardData_degrades`: an asset with no conversion
path at all, over an empty ticker table. -/
theorem fetchDashboardData_degrades_witness :
    toQuoteValue (fun _ => none) "USD" (⟨"XYZ", 1, 0⟩ : BalanceEntry).asset
      ((⟨"XYZ", 1, 0⟩ : BalanceEntry).free + (⟨"XYZ", 1, 0⟩ : BalanceEntry).locked) = 0 ∧
    (spotBalance (fun _ => none) "USD" [⟨"XYZ", 1, 0⟩, ⟨"USDT", 3, 0⟩] =
        spotBalance (fun _ => none) "USD" [⟨"USDT", 3, 0⟩] ∧
      ∀ bs : List BalanceEntry,
        fetchDashboardData (fun _ => none) "USD" bs none =
          { accountBalance := spotBalance (fun _ => none) "USD" bs
            spotBalance := spotBalance (fun _ => none) "USD" bs
            futuresBalance := 0
            totalBalance := spotBalance (fun _ => none) "USD" bs
            futuresAvailable := false }) :=
  ⟨by simp +decide only [toQuoteValue, truthyPrice, stableCoins]; norm_num,
    fetchDashboardData_degrades (fun _ => none) "USD" ⟨"XYZ", 1, 0⟩ [⟨"USDT", 3, 0⟩]
      (by simp +decide only [toQuoteValue, truthyPrice, stableCoins]; norm_num)⟩

end SettingsService
